import Mathlib

/-!
Verification of the Quantum Gravity Miner IIT v8 kernel
(`src/miners/python-miner/quantum_gravity_miner_iit_v8.py`).

Modelling conventions:
* Python `float` values are modelled as exact rationals `ℚ`; the literal
  `1e-12` is modelled as `1/10^12` and `np.clip(x, lo, hi)` as
  `min (max x lo) hi`.
* Python `int` is `ℤ` (or `ℕ` where the source guarantees non-negativity);
  `int.bit_length()` is `bit_length` below.
* External library primitives are abstracted as oracle parameters:
  `hashOf` stands for the integer value of the 64-hex spectral hash
  (`SpectralHash.compute_spectral_signature` followed by `int(·, 16)`),
  the seven `raw*` oracles stand for the linear-algebra expressions
  (SVD / eigendecompositions) that each `compute_*` method clips into
  `[0, 1]`, `log2` stands for `math.log2`, and `sha` stands for
  `hashlib.sha256(...).digest()` (a list of byte values).
  The control flow, arithmetic, clipping and normalisation surrounding
  those calls is translated directly from the source.
* Byte strings are `List ℕ` (byte values); `block_data + str(nonce)` is
  `block_data ++ toString nonce` on Lean `String`s (UTF-8 encoding of the
  concatenation is injective, so the `String` level is faithful).
-/

/-- Embedding of `np.clip(x, lo, hi)` on exact rationals. -/
def clip (x lo hi : ℚ) : ℚ := min (max x lo) hi

/-- Python `int.bit_length()` on naturals: `bit_length 0 = 0`,
and for `n > 0` the position of the most significant bit. -/
def bit_length (n : ℕ) : ℕ := if n = 0 then 0 else Nat.log2 n + 1

/-- Value of a single hexadecimal digit, as accepted by Python `int(·, 16)`. -/
def hexDigitVal (c : Char) : Option ℕ :=
  if '0' ≤ c ∧ c ≤ '9' then some (c.toNat - '0'.toNat)
  else if 'a' ≤ c ∧ c ≤ 'f' then some (c.toNat - 'a'.toNat + 10)
  else if 'A' ≤ c ∧ c ≤ 'F' then some (c.toNat - 'A'.toNat + 10)
  else none

/-- Python `int(s, 16)` on plain hexadecimal strings (no sign/prefix;
`none` models the `ValueError` on empty or non-hex input). -/
def intHex (s : String) : Option ℕ :=
  if s.isEmpty then none
  else s.toList.foldl
    (fun acc c => acc.bind fun a => (hexDigitVal c).map fun v => 16 * a + v)
    (some 0)

/-- Embedding of `QuantumGravityMinerIITv8.meets_difficulty`, numeric core: the guard
`difficulty <= 0` returns `True`; otherwise compare the hash integer with
`target = 2 ** (256 - difficulty.bit_length())`. For a non-negative
exponent the Python target is an exact integer; for a negative exponent it
is the float `2.0 ** e`, which is the exact power of two while
`e ≥ -1074` (powers of two are representable down to the smallest
subnormal `2^-1074`) and underflows to `0.0` once `e ≤ -1075`
(`bit_length ≥ 1331`), where `hash_int < 0.0` is false for every hash.
Python's int-float comparison is mathematically exact, so over `ℚ` this
two-branch form reproduces the source bit-for-bit. -/
def meets_difficulty (hashInt : ℕ) (difficulty : ℤ) : Bool :=
  if difficulty ≤ 0 then true
  else if (256 : ℤ) - bit_length difficulty.toNat < -1074 then false
  else decide ((hashInt : ℚ) < 2 ^ ((256 : ℤ) - bit_length difficulty.toNat))

/-- Embedding of `QuantumGravityMinerIITv8.meets_difficulty` at the hex-string level:
`int(hash_hex, 16)` is performed only after the `difficulty <= 0` guard. -/
def meets_difficulty_hex (hash_hex : String) (difficulty : ℤ) : Option Bool :=
  if difficulty ≤ 0 then some true
  else (intHex hash_hex).map fun x => meets_difficulty x difficulty

/-- Embedding of `PhiStructureV8`: the eight `[0,1]` scores, defaulting to `0.0`. -/
structure PhiStructureV8 where
  phi_tau    : ℚ := 0
  gwt_s      : ℚ := 0
  icp_avg    : ℚ := 0
  fano_score : ℚ := 0
  phi_nab    : ℚ := 0
  qg_score   : ℚ := 0
  holo_score : ℚ := 0
  phi_total  : ℚ := 0
  deriving DecidableEq

/-- Default-constructed `PhiStructureV8()` — all fields `0.0`. -/
def defaultPhiStructure : PhiStructureV8 :=
  { phi_tau := 0, gwt_s := 0, icp_avg := 0, fano_score := 0,
    phi_nab := 0, qg_score := 0, holo_score := 0, phi_total := 0 }

/-- Embedding of `ASISphinxOSIITv8`: the seven composite weights together with the
abstracted per-component linear-algebra expressions (`raw*`, the value each
`IITv8Engine.compute_*` method produces just before its final
`np.clip(·, 0.0, 1.0)`) and `math.log2` as an oracle. -/
structure ASISphinxOSIITv8 where
  alpha   : ℚ
  beta    : ℚ
  gamma   : ℚ
  delta   : ℚ
  epsilon : ℚ
  zeta    : ℚ
  eta     : ℚ
  rawTau  : String → ℚ
  rawGwt  : String → ℚ
  rawIcp  : String → ℚ
  rawFano : String → ℚ
  rawNab  : String → ℚ
  rawQg   : String → ℚ
  rawHolo : String → ℚ
  log2    : ℕ → ℚ

/-- Embedding of `IITv8Engine.compute_phi_tau`: oracle expression clipped to `[0,1]`. -/
def ASISphinxOSIITv8.compute_phi_tau (A : ASISphinxOSIITv8) (data : String) : ℚ :=
  clip (A.rawTau data) 0 1

/-- Embedding of `IITv8Engine.compute_gwt_score`: oracle expression clipped to `[0,1]`. -/
def ASISphinxOSIITv8.compute_gwt_score (A : ASISphinxOSIITv8) (data : String) : ℚ :=
  clip (A.rawGwt data) 0 1

/-- Embedding of `IITv8Engine.compute_icp_avg`: oracle expression clipped to `[0,1]`. -/
def ASISphinxOSIITv8.compute_icp_avg (A : ASISphinxOSIITv8) (data : String) : ℚ :=
  clip (A.rawIcp data) 0 1

/-- Embedding of `IITv8Engine.compute_fano_score`: oracle expression clipped to `[0,1]`. -/
def ASISphinxOSIITv8.compute_fano_score (A : ASISphinxOSIITv8) (data : String) : ℚ :=
  clip (A.rawFano data) 0 1

/-- Embedding of `IITv8Engine.compute_phi_nab`: oracle expression clipped to `[0,1]`. -/
def ASISphinxOSIITv8.compute_phi_nab (A : ASISphinxOSIITv8) (data : String) : ℚ :=
  clip (A.rawNab data) 0 1

/-- Embedding of `IITv8Engine.compute_qg_score`: oracle expression clipped to `[0,1]`. -/
def ASISphinxOSIITv8.compute_qg_score (A : ASISphinxOSIITv8) (data : String) : ℚ :=
  clip (A.rawQg data) 0 1

/-- Embedding of `IITv8Engine.compute_holo_score`: oracle expression clipped to `[0,1]`. -/
def ASISphinxOSIITv8.compute_holo_score (A : ASISphinxOSIITv8) (data : String) : ℚ :=
  clip (A.rawHolo data) 0 1

/-- Embedding of `ASISphinxOSIITv8.compute_block_consciousness`: the seven component
scores and the weighted composite `phi_total`, clipped to `[0,1]`. -/
def ASISphinxOSIITv8.compute_block_consciousness
    (A : ASISphinxOSIITv8) (data : String) : PhiStructureV8 :=
  let phi_tau    := A.compute_phi_tau data
  let gwt_s      := A.compute_gwt_score data
  let icp_avg    := A.compute_icp_avg data
  let fano_score := A.compute_fano_score data
  let phi_nab    := A.compute_phi_nab data
  let qg_score   := A.compute_qg_score data
  let holo_score := A.compute_holo_score data
  let phi_total  :=
    A.alpha * phi_tau + A.beta * gwt_s + A.gamma * icp_avg
      + A.delta * fano_score + A.epsilon * phi_nab + A.zeta * qg_score
      + A.eta * holo_score
  { phi_tau := phi_tau, gwt_s := gwt_s, icp_avg := icp_avg,
    fano_score := fano_score, phi_nab := phi_nab, qg_score := qg_score,
    holo_score := holo_score, phi_total := clip phi_total 0 1 }

/-- Embedding of `ASISphinxOSIITv8.phi_to_legacy_score`:
`np.clip(200.0 + phi_total * 800.0, 200.0, 1000.0)`. -/
def ASISphinxOSIITv8.phi_to_legacy_score (_A : ASISphinxOSIITv8) (phi_total : ℚ) : ℚ :=
  clip (200 + phi_total * 800) 200 1000

/-- Embedding of `ASISphinxOSIITv8.validate_consciousness_consensus`:
`phi_total > log2(max(n_nodes, 1)) + delta * fano_score + zeta * qg_score`. -/
def ASISphinxOSIITv8.validate_consciousness_consensus
    (A : ASISphinxOSIITv8) (phi_total fano_score qg_score : ℚ) (n_nodes : ℤ) : Bool :=
  let n := max n_nodes 1
  let threshold := A.log2 n.toNat + A.delta * fano_score + A.zeta * qg_score
  decide (threshold < phi_total)

/-- Embedding of `MineResultV8`; `block_hash` is stored as the hash's integer value
(the source stores the 64-hex rendering of the same number). -/
structure MineResultV8 where
  nonce      : Option ℕ
  block_hash : Option ℕ
  phi_total  : ℚ
  qg_score   : ℚ
  holo_score : ℚ
  fano_score : ℚ
  phi_score  : ℚ
  attempts   : ℕ
  deriving DecidableEq

/-- The "no valid nonce found" sentinel returned on exhaustion. -/
def exhaustedResult (max_attempts : ℕ) : MineResultV8 :=
  { nonce := none, block_hash := none, phi_total := 0, qg_score := 0,
    holo_score := 0, fano_score := 0, phi_score := 200, attempts := max_attempts }

/-- The `mine_with_stats` statistics dictionary. -/
structure MiningStats where
  total_attempts        : ℕ
  difficulty_rejected   : ℕ
  consciousness_rejected : ℕ
  qg_curvature_rejected : ℕ
  accepted              : ℕ
  deriving DecidableEq

/-- The all-zero initial statistics dictionary. -/
def statsZero : MiningStats :=
  { total_attempts := 0, difficulty_rejected := 0, consciousness_rejected := 0,
    qg_curvature_rejected := 0, accepted := 0 }

/-- Embedding of `QuantumGravityMinerIITv8`: spectral-hash oracle (integer value of the
64-hex signature), the IIT engine, and the QG curvature threshold. -/
structure QuantumGravityMinerIITv8 where
  hashOf       : String → ℕ
  iit          : ASISphinxOSIITv8
  qg_threshold : ℚ

/-- Embedding of `QuantumGravityMinerIITv8.compute_hash` (integer value of the hex digest). -/
def QuantumGravityMinerIITv8.compute_hash
    (M : QuantumGravityMinerIITv8) (data : String) : ℕ :=
  M.hashOf data

/-- Embedding of `QuantumGravityMinerIITv8.compute_phi_structure`. -/
def QuantumGravityMinerIITv8.compute_phi_structure
    (M : QuantumGravityMinerIITv8) (data : String) : PhiStructureV8 :=
  M.iit.compute_block_consciousness data

/-- Embedding of `QuantumGravityMinerIITv8.is_valid_block`: the three gates in order
difficulty, consciousness, qg_curvature, short-circuiting at the first
failure exactly as in the source. -/
def QuantumGravityMinerIITv8.is_valid_block
    (M : QuantumGravityMinerIITv8) (data : String) (difficulty : ℤ)
    (n_network_nodes : ℤ) : Bool × PhiStructureV8 × String :=
  if ¬ meets_difficulty (M.compute_hash data) difficulty then
    (false, defaultPhiStructure, "difficulty")
  else
    let structure_ := M.compute_phi_structure data
    if ¬ M.iit.validate_consciousness_consensus structure_.phi_total
        structure_.fano_score structure_.qg_score n_network_nodes then
      (false, structure_, "consciousness")
    else if structure_.qg_score < M.qg_threshold then
      (false, structure_, "qg_curvature")
    else
      (true, structure_, "")

/-- The nonce loop of `QuantumGravityMinerIITv8.mine`: `fuel` counts the
remaining iterations of `for nonce in range(max_attempts)` (so it is called
with `fuel = max_attempts`, `nonce = 0`, and `fuel + nonce = max_attempts`
throughout). -/
def QuantumGravityMinerIITv8.mineGo
    (M : QuantumGravityMinerIITv8) (block_data : String) (difficulty : ℤ)
    (n_network_nodes : ℤ) (max_attempts : ℕ) : ℕ → ℕ → MineResultV8
  | 0, _ => exhaustedResult max_attempts
  | fuel + 1, nonce =>
    let data := block_data ++ toString nonce
    let r := M.is_valid_block data difficulty n_network_nodes
    if r.1 then
      let s := r.2.1
      { nonce := some nonce, block_hash := some (M.compute_hash data),
        phi_total := s.phi_total, qg_score := s.qg_score,
        holo_score := s.holo_score, fano_score := s.fano_score,
        phi_score := M.iit.phi_to_legacy_score s.phi_total,
        attempts := nonce + 1 }
    else
      M.mineGo block_data difficulty n_network_nodes max_attempts fuel (nonce + 1)

/-- Embedding of `QuantumGravityMinerIITv8.mine`. -/
def QuantumGravityMinerIITv8.mine
    (M : QuantumGravityMinerIITv8) (block_data : String) (difficulty : ℤ)
    (n_network_nodes : ℤ) (max_attempts : ℕ) : MineResultV8 :=
  M.mineGo block_data difficulty n_network_nodes max_attempts max_attempts 0

/-- The nonce loop of `QuantumGravityMinerIITv8.mine_with_stats`,
threading the statistics dictionary; branches compare the returned
`gate_failed` string exactly as the source does. -/
def QuantumGravityMinerIITv8.mineStatsGo
    (M : QuantumGravityMinerIITv8) (block_data : String) (difficulty : ℤ)
    (n_network_nodes : ℤ) (max_attempts : ℕ) :
    ℕ → ℕ → MiningStats → MineResultV8 × MiningStats
  | 0, _, stats => (exhaustedResult max_attempts, stats)
  | fuel + 1, nonce, stats =>
    let stats1 := { stats with total_attempts := stats.total_attempts + 1 }
    let data := block_data ++ toString nonce
    let r := M.is_valid_block data difficulty n_network_nodes
    if r.2.2 = "difficulty" then
      M.mineStatsGo block_data difficulty n_network_nodes max_attempts fuel
        (nonce + 1)
        { stats1 with difficulty_rejected := stats1.difficulty_rejected + 1 }
    else if r.2.2 = "consciousness" then
      M.mineStatsGo block_data difficulty n_network_nodes max_attempts fuel
        (nonce + 1)
        { stats1 with consciousness_rejected := stats1.consciousness_rejected + 1 }
    else if r.2.2 = "qg_curvature" then
      M.mineStatsGo block_data difficulty n_network_nodes max_attempts fuel
        (nonce + 1)
        { stats1 with qg_curvature_rejected := stats1.qg_curvature_rejected + 1 }
    else
      let s := r.2.1
      ({ nonce := some nonce, block_hash := some (M.compute_hash data),
         phi_total := s.phi_total, qg_score := s.qg_score,
         holo_score := s.holo_score, fano_score := s.fano_score,
         phi_score := M.iit.phi_to_legacy_score s.phi_total,
         attempts := nonce + 1 },
       { stats1 with accepted := 1 })

/-- Embedding of `QuantumGravityMinerIITv8.mine_with_stats`. -/
def QuantumGravityMinerIITv8.mine_with_stats
    (M : QuantumGravityMinerIITv8) (block_data : String) (difficulty : ℤ)
    (n_network_nodes : ℤ) (max_attempts : ℕ) : MineResultV8 × MiningStats :=
  M.mineStatsGo block_data difficulty n_network_nodes max_attempts
    max_attempts 0 statsZero

/-- Embedding of `i.to_bytes(4, "little")` for the keystream counter. -/
def le4 (i : ℕ) : List ℕ :=
  [i % 256, i / 2 ^ 8 % 256, i / 2 ^ 16 % 256, i / 2 ^ 24 % 256]

/-- The `while len(raw) < needed` keystream loop of
`IITv8Engine._build_stochastic`, appending `sha(seed ++ le4 i)` blocks.
`fuel` bounds the iterations: a real SHA-256 `sha` yields 32 bytes per
block, so `fuel = needed` iterations always suffice and the fuel bound is
never the reason the loop stops. -/
def gen_raw (sha : List ℕ → List ℕ) (seed : List ℕ) (needed : ℕ) :
    ℕ → ℕ → List ℕ → List ℕ
  | 0, _, acc => acc
  | fuel + 1, i, acc =>
    if acc.length < needed then
      gen_raw sha seed needed fuel (i + 1) (acc ++ sha (seed ++ le4 i))
    else acc

/-- Embedding of `np.frombuffer(·, dtype=np.uint32)`: consecutive 4-byte groups read
little-endian (trailing partial groups discarded). -/
def u32s : List ℕ → List ℕ
  | b0 :: b1 :: b2 :: b3 :: rest =>
    (b0 + 2 ^ 8 * b1 + 2 ^ 16 * b2 + 2 ^ 24 * b3) :: u32s rest
  | _ => []

/-- Embedding of `IITv8Engine._build_stochastic`: seed from `sha(data ++ suffix)`,
`n*n*4` keystream bytes, `n²` little-endian u32 values scaled by `2⁻³²`
and reshaped row-major into an `n × n` matrix, then each row divided by
`row_sum + 1e-12`. -/
def build_stochastic (sha : List ℕ → List ℕ) (data suffix : List ℕ)
    (n : ℕ) : List (List ℚ) :=
  let seed := sha (data ++ suffix)
  let needed := n * n * 4
  let raw := gen_raw sha seed needed needed 0 []
  let vals : List ℚ := (u32s (raw.take needed)).map fun (u : ℕ) => (u : ℚ) / 2 ^ 32
  (List.range n).map fun i =>
    let row := (List.range n).map fun j => vals.getD (i * n + j) 0
    let s := row.sum + 1 / 10 ^ 12
    row.map fun x => x / s

/-- Concrete stand-in for `hashlib.sha256(·).digest()` used by witnesses:
a fixed 32-byte output (valid byte values, 32 bytes, like any digest). -/
def sha0 : List ℕ → List ℕ := fun _ => List.replicate 32 7

/-- Concrete consciousness engine used by witness instantiations. -/
def asi0 : ASISphinxOSIITv8 :=
  { alpha := 3/10, beta := 3/20, gamma := 3/20, delta := 0, epsilon := 1/10,
    zeta := 0, eta := 1/20,
    rawTau := fun _ => 1/2, rawGwt := fun _ => 1/2, rawIcp := fun _ => 1/2,
    rawFano := fun _ => 1/2, rawNab := fun _ => 1/2, rawQg := fun _ => 1/2,
    rawHolo := fun _ => 1/2,
    log2 := fun k => if k = 1 then 0 else if k = 2 then 1 else 2 }

/-- Concrete miner used by witness instantiations: every spectral hash has
integer value 1. -/
def miner0 : QuantumGravityMinerIITv8 :=
  { hashOf := fun _ => 1, iit := asi0, qg_threshold := 1/10 }

/-- The all-zeros 64-character hash string `"0" * 64`. -/
def zeros64 : String := String.mk (List.replicate 64 '0')

/-- The all-f 64-character hash string `"f" * 64`. -/
def fs64 : String := String.mk (List.replicate 64 'f')

lemma clip_le_hi (x lo hi : ℚ) : clip x lo hi ≤ hi := min_le_right _ _

lemma le_clip (x lo hi : ℚ) (h : lo ≤ hi) : lo ≤ clip x lo hi :=
  le_min (le_max_right _ _) h

lemma clip01_nonneg (x : ℚ) : 0 ≤ clip x 0 1 := le_clip x 0 1 (by norm_num)

lemma clip01_le_one (x : ℚ) : clip x 0 1 ≤ 1 := clip_le_hi x 0 1

lemma bit_length_mono {m n : ℕ} (h : m ≤ n) : bit_length m ≤ bit_length n := by
  unfold bit_length
  rcases Nat.eq_zero_or_pos m with hm | hm
  · simp [hm]
  · have hm' : m ≠ 0 := Nat.pos_iff_ne_zero.mp hm
    have hn' : n ≠ 0 := Nat.pos_iff_ne_zero.mp (lt_of_lt_of_le hm h)
    simp only [hm', hn', if_false]
    have := Nat.log_mono_right (b := 2) h
    simp only [Nat.log2_eq_log_two]
    omega

lemma bit_length_ge_of_le {k n : ℕ} (hn : n ≠ 0) (h : 2 ^ k ≤ n) :
    k + 1 ≤ bit_length n := by
  unfold bit_length
  simp only [hn, if_false]
  have : k ≤ Nat.log2 n := (Nat.le_log2 hn).mpr h
  omega

lemma one_le_bit_length {n : ℕ} (hn : n ≠ 0) : 1 ≤ bit_length n := by
  have := bit_length_ge_of_le (k := 0) hn (by simpa using Nat.one_le_iff_ne_zero.mpr hn)
  omega

/-- The target `2 ^ (256 - bit_length d)` is antitone in `d`. -/
lemma target_antitone {d1 d2 : ℤ} (h : d1 ≤ d2) :
    (2 : ℚ) ^ ((256 : ℤ) - bit_length d2.toNat) ≤
      (2 : ℚ) ^ ((256 : ℤ) - bit_length d1.toNat) := by
  apply zpow_le_zpow_right₀ (by norm_num)
  have := bit_length_mono (Int.toNat_le_toNat h)
  omega

lemma meets_difficulty_of_nonpos {hashInt : ℕ} {d : ℤ} (h : d ≤ 0) :
    meets_difficulty hashInt d = true := by
  simp [meets_difficulty, h]

lemma meets_difficulty_of_pos_small {hashInt : ℕ} {d : ℤ} (h : 0 < d)
    (he : -1074 ≤ (256 : ℤ) - bit_length d.toNat) :
    meets_difficulty hashInt d =
      decide ((hashInt : ℚ) < 2 ^ ((256 : ℤ) - bit_length d.toNat)) := by
  simp [meets_difficulty, not_le.mpr h, not_lt.mpr he]

lemma meets_difficulty_of_pos_tiny {hashInt : ℕ} {d : ℤ} (h : 0 < d)
    (he : (256 : ℤ) - bit_length d.toNat < -1074) :
    meets_difficulty hashInt d = false := by
  simp [meets_difficulty, not_le.mpr h, he]

lemma meets_difficulty_zero_hash {d : ℤ} (hbl : bit_length d.toNat ≤ 1330) :
    meets_difficulty 0 d = true := by
  rcases le_or_lt d 0 with h | h
  · exact meets_difficulty_of_nonpos h
  · rw [meets_difficulty_of_pos_small h (by omega)]
    simp only [decide_eq_true_eq, Nat.cast_zero]
    exact zpow_pos (by norm_num) _

/-- Monotonicity: once the difficulty predicate is false it stays false
(the target only shrinks as `d` grows, eventually underflowing to 0.0). -/
lemma meets_difficulty_antitone {hashInt : ℕ} {d1 d2 : ℤ} (h12 : d1 ≤ d2)
    (h1 : meets_difficulty hashInt d1 = false) :
    meets_difficulty hashInt d2 = false := by
  rcases le_or_lt d1 0 with hd1 | hd1
  · rw [meets_difficulty_of_nonpos hd1] at h1; cases h1
  · have hd2 : 0 < d2 := lt_of_lt_of_le hd1 h12
    rcases lt_or_le ((256 : ℤ) - bit_length d2.toNat) (-1074) with he2 | he2
    · exact meets_difficulty_of_pos_tiny hd2 he2
    · have he1 : -1074 ≤ (256 : ℤ) - bit_length d1.toNat := by
        have := bit_length_mono (Int.toNat_le_toNat h12)
        omega
      rw [meets_difficulty_of_pos_small hd1 he1] at h1
      rw [meets_difficulty_of_pos_small hd2 he2]
      simp only [decide_eq_false_iff_not, not_lt] at h1 ⊢
      exact le_trans (target_antitone h12) h1

/-- For `d ≥ 2^256` the target drops below 1 (or underflows to 0.0), so
any nonzero hash fails. -/
lemma meets_difficulty_false_of_huge {hashInt : ℕ} {d : ℤ}
    (hd : (2 : ℤ) ^ 256 ≤ d) (hh : hashInt ≠ 0) :
    meets_difficulty hashInt d = false := by
  have hd0 : 0 < d := lt_of_lt_of_le (by positivity) hd
  rcases lt_or_le ((256 : ℤ) - bit_length d.toNat) (-1074) with he | he
  · exact meets_difficulty_of_pos_tiny hd0 he
  · rw [meets_difficulty_of_pos_small hd0 he]
    simp only [decide_eq_false_iff_not, not_lt]
    have hbn : (2 : ℕ) ^ 256 ≤ d.toNat := by
      have := Int.toNat_le_toNat hd
      simpa using this
    have hne : d.toNat ≠ 0 := by positivity
    have hbl : 257 ≤ bit_length d.toNat := bit_length_ge_of_le hne hbn
    calc (2 : ℚ) ^ ((256 : ℤ) - bit_length d.toNat)
        ≤ (2 : ℚ) ^ (-1 : ℤ) := by
          apply zpow_le_zpow_right₀ (by norm_num)
          omega
      _ ≤ 1 := by norm_num
      _ ≤ (hashInt : ℚ) := by
          have : (1 : ℕ) ≤ hashInt := Nat.one_le_iff_ne_zero.mpr hh
          exact_mod_cast this

lemma iv_diff_fail {M : QuantumGravityMinerIITv8} {data : String} {d nn : ℤ}
    (h : meets_difficulty (M.hashOf data) d = false) :
    M.is_valid_block data d nn = (false, defaultPhiStructure, "difficulty") := by
  simp [QuantumGravityMinerIITv8.is_valid_block,
    QuantumGravityMinerIITv8.compute_hash, h]

lemma iv_cons_fail {M : QuantumGravityMinerIITv8} {data : String} {d nn : ℤ}
    (h : meets_difficulty (M.hashOf data) d = true)
    (hc : M.iit.validate_consciousness_consensus
        (M.compute_phi_structure data).phi_total
        (M.compute_phi_structure data).fano_score
        (M.compute_phi_structure data).qg_score nn = false) :
    M.is_valid_block data d nn =
      (false, M.compute_phi_structure data, "consciousness") := by
  simp [QuantumGravityMinerIITv8.is_valid_block,
    QuantumGravityMinerIITv8.compute_hash, h, hc]

lemma iv_qg_fail {M : QuantumGravityMinerIITv8} {data : String} {d nn : ℤ}
    (h : meets_difficulty (M.hashOf data) d = true)
    (hc : M.iit.validate_consciousness_consensus
        (M.compute_phi_structure data).phi_total
        (M.compute_phi_structure data).fano_score
        (M.compute_phi_structure data).qg_score nn = true)
    (hq : (M.compute_phi_structure data).qg_score < M.qg_threshold) :
    M.is_valid_block data d nn =
      (false, M.compute_phi_structure data, "qg_curvature") := by
  simp [QuantumGravityMinerIITv8.is_valid_block,
    QuantumGravityMinerIITv8.compute_hash, h, hc, hq]

lemma iv_pass {M : QuantumGravityMinerIITv8} {data : String} {d nn : ℤ}
    (h : meets_difficulty (M.hashOf data) d = true)
    (hc : M.iit.validate_consciousness_consensus
        (M.compute_phi_structure data).phi_total
        (M.compute_phi_structure data).fano_score
        (M.compute_phi_structure data).qg_score nn = true)
    (hq : ¬ (M.compute_phi_structure data).qg_score < M.qg_threshold) :
    M.is_valid_block data d nn = (true, M.compute_phi_structure data, "") := by
  simp [QuantumGravityMinerIITv8.is_valid_block,
    QuantumGravityMinerIITv8.compute_hash, h, hc, hq]

/-- Shape of every `is_valid_block` result: valid with gate `""`, or
invalid with the structure it reports and one of the three gate names. -/
lemma iv_shape (M : QuantumGravityMinerIITv8) (data : String) (d nn : ℤ) :
    ((M.is_valid_block data d nn).1 = true ∧
      (M.is_valid_block data d nn).2.2 = "" ∧
      (M.is_valid_block data d nn).2.1 = M.compute_phi_structure data) ∨
    ((M.is_valid_block data d nn).1 = false ∧
      ((M.is_valid_block data d nn).2.2 = "difficulty" ∨
        (M.is_valid_block data d nn).2.2 = "consciousness" ∨
        (M.is_valid_block data d nn).2.2 = "qg_curvature")) := by
  rcases Bool.eq_false_or_eq_true (meets_difficulty (M.hashOf data) d) with h | h
  · rcases Bool.eq_false_or_eq_true
      (M.iit.validate_consciousness_consensus
        (M.compute_phi_structure data).phi_total
        (M.compute_phi_structure data).fano_score
        (M.compute_phi_structure data).qg_score nn) with hc | hc
    · by_cases hq : (M.compute_phi_structure data).qg_score < M.qg_threshold
      · right; rw [iv_qg_fail h hc hq]; exact ⟨rfl, Or.inr (Or.inr rfl)⟩
      · left; rw [iv_pass h hc hq]; exact ⟨rfl, rfl, rfl⟩
    · right; rw [iv_cons_fail h hc]; exact ⟨rfl, Or.inr (Or.inl rfl)⟩
  · right; rw [iv_diff_fail h]; exact ⟨rfl, Or.inl rfl⟩

/-- If every nonce in the window fails some gate, the mining loop exhausts. -/
lemma mineGo_exhaust (M : QuantumGravityMinerIITv8) (bd : String) (d nn : ℤ)
    (ma : ℕ) : ∀ fuel nonce,
    (∀ k, k < fuel → (M.is_valid_block (bd ++ toString (nonce + k)) d nn).1 = false) →
    M.mineGo bd d nn ma fuel nonce = exhaustedResult ma := by
  intro fuel
  induction fuel with
  | zero => intro nonce _; rfl
  | succ fuel ih =>
    intro nonce h
    have h0 : (M.is_valid_block (bd ++ toString nonce) d nn).1 = false := by
      simpa using h 0 (Nat.succ_pos _)
    simp only [QuantumGravityMinerIITv8.mineGo, h0, Bool.false_eq_true, if_false]
    exact ih (nonce + 1) fun k hk => by
      have := h (k + 1) (by omega)
      simpa [Nat.add_assoc, Nat.add_comm 1 k] using this

/-- The stats variant returns the same `MineResultV8` as `mine`. -/
lemma mineStatsGo_fst (M : QuantumGravityMinerIITv8) (bd : String) (d nn : ℤ)
    (ma : ℕ) : ∀ fuel nonce stats,
    (M.mineStatsGo bd d nn ma fuel nonce stats).1 = M.mineGo bd d nn ma fuel nonce := by
  intro fuel
  induction fuel with
  | zero => intro nonce stats; rfl
  | succ fuel ih =>
    intro nonce stats
    rcases iv_shape M (bd ++ toString nonce) d nn with ⟨hv, hg, _⟩ | ⟨hv, hg⟩
    · simp only [QuantumGravityMinerIITv8.mineStatsGo,
        QuantumGravityMinerIITv8.mineGo, hv, hg, if_true]
      rw [if_neg (by decide : ¬ ("" : String) = "difficulty"),
        if_neg (by decide : ¬ ("" : String) = "consciousness"),
        if_neg (by decide : ¬ ("" : String) = "qg_curvature")]
    · rcases hg with hg | hg | hg <;>
        simp only [QuantumGravityMinerIITv8.mineStatsGo,
          QuantumGravityMinerIITv8.mineGo, hv, hg, Bool.false_eq_true,
          if_false]
      · rw [if_pos trivial]; exact ih (nonce + 1) _
      · rw [if_pos trivial]; exact ih (nonce + 1) _
      · rw [if_pos trivial]; exact ih (nonce + 1) _

/-- The per-gate counters plus `accepted` always account for every attempt,
and `accepted` records exactly whether a nonce was returned. -/
lemma mineStatsGo_inv (M : QuantumGravityMinerIITv8) (bd : String) (d nn : ℤ)
    (ma : ℕ) : ∀ fuel nonce stats,
    stats.difficulty_rejected + stats.consciousness_rejected +
        stats.qg_curvature_rejected + stats.accepted = stats.total_attempts →
    stats.accepted = 0 →
    ((M.mineStatsGo bd d nn ma fuel nonce stats).2.difficulty_rejected +
        (M.mineStatsGo bd d nn ma fuel nonce stats).2.consciousness_rejected +
        (M.mineStatsGo bd d nn ma fuel nonce stats).2.qg_curvature_rejected +
        (M.mineStatsGo bd d nn ma fuel nonce stats).2.accepted =
        (M.mineStatsGo bd d nn ma fuel nonce stats).2.total_attempts) ∧
    ((M.mineStatsGo bd d nn ma fuel nonce stats).1.nonce.isSome = true →
        (M.mineStatsGo bd d nn ma fuel nonce stats).2.accepted = 1) ∧
    ((M.mineStatsGo bd d nn ma fuel nonce stats).1.nonce = none →
        (M.mineStatsGo bd d nn ma fuel nonce stats).2.accepted = 0) := by
  intro fuel
  induction fuel with
  | zero =>
    intro nonce stats hsum ha
    refine ⟨hsum, ?_, fun _ => ha⟩
    intro hs
    simp [QuantumGravityMinerIITv8.mineStatsGo, exhaustedResult] at hs
  | succ fuel ih =>
    intro nonce stats hsum ha
    rcases iv_shape M (bd ++ toString nonce) d nn with ⟨hv, hg, _⟩ | ⟨hv, hg⟩
    · simp only [QuantumGravityMinerIITv8.mineStatsGo, hg]
      rw [if_neg (by decide : ¬ ("" : String) = "difficulty"),
        if_neg (by decide : ¬ ("" : String) = "consciousness"),
        if_neg (by decide : ¬ ("" : String) = "qg_curvature")]
      refine ⟨?_, fun _ => rfl, ?_⟩
      · simp only
        omega
      · intro hn; simp at hn
    · rcases hg with hg | hg | hg <;>
        simp only [QuantumGravityMinerIITv8.mineStatsGo, hg] <;>
        rw [if_pos trivial] <;>
        apply ih <;>
        simp only <;>
        omega

/-- The consciousness gate fails whenever its threshold is at least 1 and
`phi_total ≤ 1`, `fano_score ≥ 0`, `qg_score ≥ 0`. -/
lemma validate_false_of_threshold_ge_one {A : ASISphinxOSIITv8}
    {phi fano qg : ℚ} {nn : ℤ} (hδ : 0 ≤ A.delta) (hζ : 0 ≤ A.zeta)
    (hlog : 1 ≤ A.log2 (max nn 1).toNat) (hphi : phi ≤ 1) (hf : 0 ≤ fano)
    (hq : 0 ≤ qg) :
    A.validate_consciousness_consensus phi fano qg nn = false := by
  simp only [ASISphinxOSIITv8.validate_consciousness_consensus,
    decide_eq_false_iff_not, not_lt]
  have h1 : 0 ≤ A.delta * fano := mul_nonneg hδ hf
  have h2 : 0 ≤ A.zeta * qg := mul_nonneg hζ hq
  linarith

/-- With non-negative gate weights and a `log2` value at least 1, no block
validates: either the difficulty gate or the consciousness gate fails. -/
lemma iv_false_of_high_nodes {M : QuantumGravityMinerIITv8} {data : String}
    {d nn : ℤ} (hδ : 0 ≤ M.iit.delta) (hζ : 0 ≤ M.iit.zeta)
    (hlog : 1 ≤ M.iit.log2 (max nn 1).toNat) :
    (M.is_valid_block data d nn).1 = false := by
  rcases Bool.eq_false_or_eq_true (meets_difficulty (M.hashOf data) d) with h | h
  · have hc : M.iit.validate_consciousness_consensus
        (M.compute_phi_structure data).phi_total
        (M.compute_phi_structure data).fano_score
        (M.compute_phi_structure data).qg_score nn = false := by
      apply validate_false_of_threshold_ge_one hδ hζ hlog
      · exact clip01_le_one _
      · exact clip01_nonneg _
      · exact clip01_nonneg _
    rw [iv_cons_fail h hc]
  · rw [iv_diff_fail h]

lemma intHex_zeros64 : intHex zeros64 = some 0 := by decide

lemma intHex_fs64 : intHex fs64 = some (2 ^ 256 - 1) := by decide

lemma meets_difficulty_allf {d : ℤ} (hd : 1 ≤ d) :
    meets_difficulty (2 ^ 256 - 1) d = false := by
  have hd0 : 0 < d := hd
  rcases lt_or_le ((256 : ℤ) - bit_length d.toNat) (-1074) with he | he
  · exact meets_difficulty_of_pos_tiny hd0 he
  · rw [meets_difficulty_of_pos_small hd0 he]
    simp only [decide_eq_false_iff_not, not_lt]
    have hne : d.toNat ≠ 0 := by
      have : (1 : ℤ).toNat ≤ d.toNat := Int.toNat_le_toNat hd
      omega
    have hbl : 1 ≤ bit_length d.toNat := one_le_bit_length hne
    have hcast : (((2 : ℕ) ^ 256 - 1 : ℕ) : ℚ) = 2 ^ 256 - 1 := by
      have h1 : (1 : ℕ) ≤ 2 ^ 256 := Nat.one_le_two_pow
      push_cast [h1]
      ring
    rw [hcast]
    calc (2 : ℚ) ^ ((256 : ℤ) - bit_length d.toNat)
        ≤ (2 : ℚ) ^ (255 : ℤ) := by
          apply zpow_le_zpow_right₀ (by norm_num)
          omega
      _ ≤ 2 ^ 256 - 1 := by
          rw [show (255 : ℤ) = ((255 : ℕ) : ℤ) from rfl, zpow_natCast]
          norm_num

lemma bit_length_two_pow (k : ℕ) : bit_length (2 ^ k) = k + 1 := by
  unfold bit_length
  rw [if_neg (by positivity : 2 ^ k ≠ 0),
    Nat.log2_eq_log_two, Nat.log_pow (by norm_num)]

lemma toNat_two_pow (k : ℕ) : ((2 : ℤ) ^ k).toNat = 2 ^ k := by
  rw [show ((2 : ℤ) ^ k) = ((2 ^ k : ℕ) : ℤ) by push_cast; ring]
  exact Int.toNat_natCast _

lemma sum_map_div (l : List ℚ) (c : ℚ) : (l.map (· / c)).sum = l.sum / c := by
  induction l with
  | nil => simp
  | cons x xs ih => simp [ih, add_div]

lemma getD_nonneg (l : List ℚ) (i : ℕ) (h : ∀ y ∈ l, 0 ≤ y) :
    0 ≤ l.getD i 0 := by
  rcases lt_or_le i l.length with hi | hi
  · rw [List.getD_eq_getElem l 0 hi]
    exact h _ (List.getElem_mem hi)
  · rw [List.getD_eq_default l 0 hi]

/-- C1: `is_valid_block` evaluates the gates in the fixed order difficulty,
consciousness, qg_curvature and reports the first failure: difficulty
failure yields `(false, default PhiStructureV8, "difficulty")` (the default
structure, no component scores), consciousness failure yields
`(false, structure, "consciousness")`, `qg_score < qg_threshold` yields
`(false, structure, "qg_curvature")`, and otherwise `(true, structure, "")`. -/
theorem is_valid_block_gate_order (M : QuantumGravityMinerIITv8)
    (data : String) (d nn : ℤ) :
    (meets_difficulty (M.hashOf data) d = false →
      M.is_valid_block data d nn = (false, defaultPhiStructure, "difficulty"))
    ∧ (meets_difficulty (M.hashOf data) d = true →
        M.iit.validate_consciousness_consensus
          (M.compute_phi_structure data).phi_total
          (M.compute_phi_structure data).fano_score
          (M.compute_phi_structure data).qg_score nn = false →
        M.is_valid_block data d nn =
          (false, M.compute_phi_structure data, "consciousness"))
    ∧ (meets_difficulty (M.hashOf data) d = true →
        M.iit.validate_consciousness_consensus
          (M.compute_phi_structure data).phi_total
          (M.compute_phi_structure data).fano_score
          (M.compute_phi_structure data).qg_score nn = true →
        (M.compute_phi_structure data).qg_score < M.qg_threshold →
        M.is_valid_block data d nn =
          (false, M.compute_phi_structure data, "qg_curvature"))
    ∧ (meets_difficulty (M.hashOf data) d = true →
        M.iit.validate_consciousness_consensus
          (M.compute_phi_structure data).phi_total
          (M.compute_phi_structure data).fano_score
          (M.compute_phi_structure data).qg_score nn = true →
        M.qg_threshold ≤ (M.compute_phi_structure data).qg_score →
        M.is_valid_block data d nn = (true, M.compute_phi_structure data, "")) :=
  ⟨fun h => iv_diff_fail h,
   fun h hc => iv_cons_fail h hc,
   fun h hc hq => iv_qg_fail h hc hq,
   fun h hc hq => iv_pass h hc (not_lt.mpr hq)⟩

/-- Witness for C1 at a concrete miner and input. -/
theorem is_valid_block_gate_order_witness :
    (meets_difficulty (miner0.hashOf "x") 0 = false →
      miner0.is_valid_block "x" 0 1 = (false, defaultPhiStructure, "difficulty"))
    ∧ (meets_difficulty (miner0.hashOf "x") 0 = true →
        miner0.iit.validate_consciousness_consensus
          (miner0.compute_phi_structure "x").phi_total
          (miner0.compute_phi_structure "x").fano_score
          (miner0.compute_phi_structure "x").qg_score 1 = false →
        miner0.is_valid_block "x" 0 1 =
          (false, miner0.compute_phi_structure "x", "consciousness"))
    ∧ (meets_difficulty (miner0.hashOf "x") 0 = true →
        miner0.iit.validate_consciousness_consensus
          (miner0.compute_phi_structure "x").phi_total
          (miner0.compute_phi_structure "x").fano_score
          (miner0.compute_phi_structure "x").qg_score 1 = true →
        (miner0.compute_phi_structure "x").qg_score < miner0.qg_threshold →
        miner0.is_valid_block "x" 0 1 =
          (false, miner0.compute_phi_structure "x", "qg_curvature"))
    ∧ (meets_difficulty (miner0.hashOf "x") 0 = true →
        miner0.iit.validate_consciousness_consensus
          (miner0.compute_phi_structure "x").phi_total
          (miner0.compute_phi_structure "x").fano_score
          (miner0.compute_phi_structure "x").qg_score 1 = true →
        miner0.qg_threshold ≤ (miner0.compute_phi_structure "x").qg_score →
        miner0.is_valid_block "x" 0 1 =
          (true, miner0.compute_phi_structure "x", "")) :=
  is_valid_block_gate_order miner0 "x" 0 1

/-- C2 counterexample: at the concrete difficulty `d = 2^1330`
(`bit_length d = 1331`) the Python float target `2.0^(256-1331)` underflows
to `0.0`, so the program rejects even the all-zeros hash — although the
claim's exact-arithmetic target `2^(256 - bit_length d)` is still positive,
which would demand a pass. -/
theorem meets_difficulty_zeros_underflow :
    (0 : ℤ) < 2 ^ 1330
    ∧ meets_difficulty_hex zeros64 ((2 : ℤ) ^ 1330) = some false
    ∧ (0 : ℚ) < 2 ^ ((256 : ℤ) - bit_length ((2 : ℤ) ^ 1330).toNat) := by
  have hd : (0 : ℤ) < 2 ^ 1330 := by positivity
  have hbl : bit_length ((2 : ℤ) ^ 1330).toNat = 1331 := by
    rw [toNat_two_pow, bit_length_two_pow]
  refine ⟨hd, ?_, zpow_pos (by norm_num) _⟩
  rw [meets_difficulty_hex, if_neg (not_le.mpr hd), intHex_zeros64,
    Option.map_some',
    meets_difficulty_of_pos_tiny hd (by rw [hbl]; norm_num)]

/-- C2 amended: `meets_difficulty(h, d)` is true when `d ≤ 0`; for `d > 0`
it is true iff the float target is nonzero — the exponent
`256 − bit_length(d)` is at least −1074, i.e. `bit_length(d) ≤ 1330` — and
`int(h, 16) < 2^(256 − bit_length(d))`, with `bit_length 1 = 1` and
`bit_length 0 = 0`; the all-zeros hash passes for every `d > 0` of bit
length at most 1330, and the all-f hash fails for every `d ≥ 1`. -/
theorem meets_difficulty_spec :
    (∀ (h : String) (d : ℤ), d ≤ 0 → meets_difficulty_hex h d = some true)
    ∧ (∀ (h : String) (x : ℕ) (d : ℤ), 0 < d → intHex h = some x →
        (meets_difficulty_hex h d = some true ↔
          -1074 ≤ (256 : ℤ) - bit_length d.toNat ∧
            (x : ℚ) < 2 ^ ((256 : ℤ) - bit_length d.toNat)))
    ∧ bit_length 1 = 1 ∧ bit_length 0 = 0
    ∧ (∀ d : ℤ, 0 < d → bit_length d.toNat ≤ 1330 →
        meets_difficulty_hex zeros64 d = some true)
    ∧ (∀ d : ℤ, 1 ≤ d → meets_difficulty_hex fs64 d = some false) := by
  refine ⟨?_, ?_, by norm_num [bit_length, Nat.log2], by norm_num [bit_length], ?_, ?_⟩
  · intro h d hd
    simp [meets_difficulty_hex, hd]
  · intro h x d hd hx
    rw [meets_difficulty_hex, if_neg (not_le.mpr hd), hx, Option.map_some',
      Option.some_inj]
    constructor
    · intro ht
      rcases lt_or_le ((256 : ℤ) - bit_length d.toNat) (-1074) with he | he
      · rw [meets_difficulty_of_pos_tiny hd he] at ht
        cases ht
      · rw [meets_difficulty_of_pos_small hd he] at ht
        exact ⟨he, of_decide_eq_true ht⟩
    · rintro ⟨he, hlt⟩
      rw [meets_difficulty_of_pos_small hd he]
      exact decide_eq_true hlt
  · intro d hd hbl
    rw [meets_difficulty_hex, if_neg (not_le.mpr hd), intHex_zeros64,
      Option.map_some', meets_difficulty_zero_hash hbl]
  · intro d hd
    rw [meets_difficulty_hex, if_neg (not_le.mpr hd), intHex_fs64,
      Option.map_some', meets_difficulty_allf hd]

/-- Witness for C2: the all-f hash fails at difficulty 1. -/
theorem meets_difficulty_spec_witness :
    meets_difficulty_hex fs64 1 = some false :=
  meets_difficulty_spec.2.2.2.2.2 1 (by norm_num)

/-- C3: the consciousness gate is the strict inequality
`phi_total > log2(max(n_nodes,1)) + δ·fano + ζ·qg`; equality fails, and with
`n_nodes = 2`, `δ = ζ = 0`, `log2 2 = 1`, `phi_total = 0.5` it returns false. -/
theorem validate_consciousness_strict (A : ASISphinxOSIITv8)
    (phi fano qg : ℚ) (nn : ℤ) :
    (A.validate_consciousness_consensus phi fano qg nn = true ↔
      A.log2 (max nn 1).toNat + A.delta * fano + A.zeta * qg < phi)
    ∧ (phi = A.log2 (max nn 1).toNat + A.delta * fano + A.zeta * qg →
        A.validate_consciousness_consensus phi fano qg nn = false)
    ∧ (A.delta = 0 → A.zeta = 0 → A.log2 2 = 1 →
        A.validate_consciousness_consensus (1/2) fano qg 2 = false) := by
  refine ⟨?_, ?_, ?_⟩
  · simp [ASISphinxOSIITv8.validate_consciousness_consensus]
  · intro h
    simp only [ASISphinxOSIITv8.validate_consciousness_consensus,
      decide_eq_false_iff_not, not_lt]
    exact le_of_eq h
  · intro hδ hζ hlog
    simp only [ASISphinxOSIITv8.validate_consciousness_consensus,
      decide_eq_false_iff_not, not_lt]
    have : ((max (2 : ℤ) 1).toNat) = 2 := by decide
    rw [this, hlog, hδ, hζ]
    norm_num

/-- Witness for C3 at the concrete engine (δ = ζ = 0, log2 2 = 1). -/
theorem validate_consciousness_strict_witness :
    asi0.validate_consciousness_consensus (1/2) 0 0 2 = false :=
  (validate_consciousness_strict asi0 0 0 0 2).2.2 rfl rfl rfl

/-- C4: if every nonce in `0 … max_attempts−1` fails some gate, `mine`
returns the sentinel (`nonce = none`, `block_hash = none`, scores 0,
`phi_score = 200`, `attempts = max_attempts`); in particular for
`difficulty ≥ 2^256` (hash values being nonzero) exhaustion is reached
cleanly, with exact integer arithmetic throughout. -/
theorem mine_exhaustion (M : QuantumGravityMinerIITv8) (bd : String)
    (d nn : ℤ) (ma : ℕ) :
    ((∀ k, k < ma → (M.is_valid_block (bd ++ toString k) d nn).1 = false) →
      M.mine bd d nn ma = exhaustedResult ma)
    ∧ ((2 : ℤ) ^ 256 ≤ d →
        (∀ k, k < ma → M.hashOf (bd ++ toString k) ≠ 0) →
        M.mine bd d nn ma = exhaustedResult ma)
    ∧ exhaustedResult ma =
        { nonce := none, block_hash := none, phi_total := 0, qg_score := 0,
          holo_score := 0, fano_score := 0, phi_score := 200,
          attempts := ma } := by
  have main : (∀ k, k < ma →
      (M.is_valid_block (bd ++ toString k) d nn).1 = false) →
      M.mine bd d nn ma = exhaustedResult ma := by
    intro h
    unfold QuantumGravityMinerIITv8.mine
    exact mineGo_exhaust M bd d nn ma ma 0 fun k hk => by
      simpa using h k hk
  refine ⟨main, ?_, rfl⟩
  intro hd hh
  apply main
  intro k hk
  have := meets_difficulty_false_of_huge hd (hh k hk)
  rw [iv_diff_fail this]

/-- Witness for C4: impossible difficulty `2^256` with nonzero hashes. -/
theorem mine_exhaustion_witness :
    miner0.mine "b" ((2 : ℤ) ^ 256) 1 2 = exhaustedResult 2 :=
  (mine_exhaustion miner0 "b" ((2 : ℤ) ^ 256) 1 2).2.1 (by norm_num)
    (fun _ _ => one_ne_zero)

/-- C5: `mine_with_stats` counters satisfy
`difficulty_rejected + consciousness_rejected + qg_curvature_rejected +
accepted = total_attempts`, with `accepted = 1` exactly when a nonce is
returned and `accepted = 0` on exhaustion. -/
theorem mine_with_stats_invariant (M : QuantumGravityMinerIITv8)
    (bd : String) (d nn : ℤ) (ma : ℕ) :
    ((M.mine_with_stats bd d nn ma).2.difficulty_rejected +
        (M.mine_with_stats bd d nn ma).2.consciousness_rejected +
        (M.mine_with_stats bd d nn ma).2.qg_curvature_rejected +
        (M.mine_with_stats bd d nn ma).2.accepted =
        (M.mine_with_stats bd d nn ma).2.total_attempts)
    ∧ ((M.mine_with_stats bd d nn ma).1.nonce.isSome = true →
        (M.mine_with_stats bd d nn ma).2.accepted = 1)
    ∧ ((M.mine_with_stats bd d nn ma).1.nonce = none →
        (M.mine_with_stats bd d nn ma).2.accepted = 0) :=
  mineStatsGo_inv M bd d nn ma ma 0 statsZero rfl rfl

set_option maxRecDepth 4000 in
/-- Witness for C5 at a concrete miner whose nonce search is exhausted
(impossible difficulty, all hash values 1). -/
theorem mine_with_stats_invariant_witness :
    (miner0.mine_with_stats "a" ((2 : ℤ) ^ 256) 1 2).2.difficulty_rejected +
        (miner0.mine_with_stats "a" ((2 : ℤ) ^ 256) 1 2).2.consciousness_rejected +
        (miner0.mine_with_stats "a" ((2 : ℤ) ^ 256) 1 2).2.qg_curvature_rejected +
        (miner0.mine_with_stats "a" ((2 : ℤ) ^ 256) 1 2).2.accepted =
        (miner0.mine_with_stats "a" ((2 : ℤ) ^ 256) 1 2).2.total_attempts ∧
    (miner0.mine_with_stats "a" ((2 : ℤ) ^ 256) 1 2).2.accepted = 0 := by
  have hnone : (miner0.mine_with_stats "a" ((2 : ℤ) ^ 256) 1 2).1.nonce = none := by
    show (miner0.mineStatsGo "a" ((2 : ℤ) ^ 256) 1 2 2 0 statsZero).1.nonce = none
    rw [mineStatsGo_fst]
    rw [mineGo_exhaust miner0 "a" ((2 : ℤ) ^ 256) 1 2 2 0 fun k _ => by
      rw [iv_diff_fail (meets_difficulty_false_of_huge (le_refl _) one_ne_zero)]]
    rfl
  exact ⟨(mine_with_stats_invariant miner0 "a" ((2 : ℤ) ^ 256) 1 2).1,
    (mine_with_stats_invariant miner0 "a" ((2 : ℤ) ^ 256) 1 2).2.2 hnone⟩

/-- C7: for a fixed hash string, `meets_difficulty` is non-increasing in
the difficulty: once false it stays false as `d` grows. -/
theorem meets_difficulty_mono (h : String) (d1 d2 : ℤ) (_h0 : 0 ≤ d1)
    (h12 : d1 ≤ d2) (hf : meets_difficulty_hex h d1 = some false) :
    meets_difficulty_hex h d2 = some false := by
  rcases le_or_lt d1 0 with hd1 | hd1
  · rw [meets_difficulty_hex, if_pos hd1] at hf
    cases hf
  · have hd2 : 0 < d2 := lt_of_lt_of_le hd1 h12
    rw [meets_difficulty_hex, if_neg (not_le.mpr hd1)] at hf
    rw [meets_difficulty_hex, if_neg (not_le.mpr hd2)]
    rcases hx : intHex h with _ | x
    · rw [hx] at hf; cases hf
    · rw [hx] at hf
      rw [Option.map_some'] at hf ⊢
      have : meets_difficulty x d1 = false := by
        injection hf
      rw [meets_difficulty_antitone h12 this]

/-- Witness for C7: the all-f hash, false at difficulty 1, stays false at 2. -/
theorem meets_difficulty_mono_witness :
    meets_difficulty_hex fs64 2 = some false :=
  meets_difficulty_mono fs64 1 2 (by norm_num) (by norm_num)
    (by rw [meets_difficulty_hex, if_neg (by norm_num : ¬ (1 : ℤ) ≤ 0),
      intHex_fs64, Option.map_some', meets_difficulty_allf (le_refl 1)])

/-- C8: `phi_to_legacy_score(φ) = clip(200 + 800·φ, 200, 1000)`; on
`φ ∈ [0,1]` it lies in `[200, 1000]`, with values 200, 600, 1000 at
`φ = 0, 0.5, 1`. -/
theorem phi_to_legacy_score_spec (A : ASISphinxOSIITv8) :
    (∀ phi : ℚ, A.phi_to_legacy_score phi = clip (200 + 800 * phi) 200 1000)
    ∧ (∀ phi : ℚ, 0 ≤ phi → phi ≤ 1 →
        200 ≤ A.phi_to_legacy_score phi ∧ A.phi_to_legacy_score phi ≤ 1000)
    ∧ A.phi_to_legacy_score 0 = 200
    ∧ A.phi_to_legacy_score (1/2) = 600
    ∧ A.phi_to_legacy_score 1 = 1000 := by
  refine ⟨?_, ?_, ?_, ?_, ?_⟩
  · intro phi
    rw [ASISphinxOSIITv8.phi_to_legacy_score, mul_comm]
  · intro phi _ _
    exact ⟨le_clip _ _ _ (by norm_num), clip_le_hi _ _ _⟩
  · norm_num [ASISphinxOSIITv8.phi_to_legacy_score, clip]
  · norm_num [ASISphinxOSIITv8.phi_to_legacy_score, clip]
  · norm_num [ASISphinxOSIITv8.phi_to_legacy_score, clip]

/-- Witness for C8 at `φ = 1/2` on the concrete engine. -/
theorem phi_to_legacy_score_spec_witness :
    200 ≤ asi0.phi_to_legacy_score (1/2) ∧
      asi0.phi_to_legacy_score (1/2) ≤ 1000 :=
  (phi_to_legacy_score_spec asi0).2.1 (1/2) (by norm_num) (by norm_num)

/-- C9: with non-negative δ, ζ, `n_network_nodes ≥ 2`, and `log2` of that
node count at least 1, `is_valid_block` never validates (`phi_total ≤ 1`
cannot strictly exceed a threshold ≥ 1), so `mine` and `mine_with_stats`
always return the exhaustion sentinel with `attempts = max_attempts` and
`accepted = 0`. -/
theorem no_valid_block_for_networks (M : QuantumGravityMinerIITv8)
    (bd data : String) (d nn : ℤ) (ma : ℕ) (hδ : 0 ≤ M.iit.delta)
    (hζ : 0 ≤ M.iit.zeta) (_hn : 2 ≤ nn)
    (hlog : 1 ≤ M.iit.log2 (max nn 1).toNat) :
    (M.is_valid_block data d nn).1 = false
    ∧ M.mine bd d nn ma = exhaustedResult ma
    ∧ (M.mine_with_stats bd d nn ma).1 = exhaustedResult ma
    ∧ (M.mine_with_stats bd d nn ma).2.accepted = 0 := by
  have hmine : M.mine bd d nn ma = exhaustedResult ma := by
    unfold QuantumGravityMinerIITv8.mine
    exact mineGo_exhaust M bd d nn ma ma 0 fun k _ =>
      iv_false_of_high_nodes hδ hζ hlog
  have hfst : (M.mine_with_stats bd d nn ma).1 = exhaustedResult ma := by
    unfold QuantumGravityMinerIITv8.mine_with_stats
    rw [mineStatsGo_fst]
    exact hmine
  refine ⟨iv_false_of_high_nodes hδ hζ hlog, hmine, hfst, ?_⟩
  exact (mineStatsGo_inv M bd d nn ma ma 0 statsZero rfl rfl).2.2
    (by rw [show (M.mineStatsGo bd d nn ma ma 0 statsZero).1 =
        (M.mine_with_stats bd d nn ma).1 from rfl, hfst]; rfl)

/-- Witness for C9 at a concrete miner with δ = ζ = 0, `n_nodes = 2`. -/
theorem no_valid_block_for_networks_witness :
    (miner0.is_valid_block "x" 0 2).1 = false
    ∧ miner0.mine "b" 0 2 3 = exhaustedResult 3
    ∧ (miner0.mine_with_stats "b" 0 2 3).1 = exhaustedResult 3
    ∧ (miner0.mine_with_stats "b" 0 2 3).2.accepted = 0 :=
  no_valid_block_for_networks miner0 "b" "x" 0 2 3 (by norm_num [miner0, asi0])
    (by norm_num [miner0, asi0]) (by norm_num)
    (by norm_num [miner0, asi0, show Int.toNat 2 = 2 from rfl])

/-- C10: `mine_with_stats` returns exactly the `MineResultV8` that `mine`
returns on the same arguments — the stats variant only adds bookkeeping. -/
theorem mine_with_stats_fst_eq_mine (M : QuantumGravityMinerIITv8)
    (bd : String) (d nn : ℤ) (ma : ℕ) :
    (M.mine_with_stats bd d nn ma).1 = M.mine bd d nn ma :=
  mineStatsGo_fst M bd d nn ma ma 0 statsZero

lemma build_stochastic_length (sha : List ℕ → List ℕ) (data suffix : List ℕ)
    (n : ℕ) : (build_stochastic sha data suffix n).length = n := by
  simp [build_stochastic]

lemma build_stochastic_row_length (sha : List ℕ → List ℕ)
    (data suffix : List ℕ) (n : ℕ) :
    ∀ row ∈ build_stochastic sha data suffix n, row.length = n := by
  intro row hrow
  simp only [build_stochastic, List.mem_map, List.mem_range] at hrow
  obtain ⟨i, _, heq⟩ := hrow
  simp [← heq]

lemma div_add_eps_lt_one {t : ℚ} (ht : 0 ≤ t) : t / (t + 1/10^12) < 1 := by
  rw [div_lt_one (by linarith)]
  linarith

lemma build_stochastic_row_sum_lt_one (sha : List ℕ → List ℕ)
    (data suffix : List ℕ) (n : ℕ) :
    ∀ row ∈ build_stochastic sha data suffix n, row.sum < 1 := by
  intro row hrow
  simp only [build_stochastic, List.mem_map, List.mem_range] at hrow
  obtain ⟨i, _, heq⟩ := hrow
  rw [← heq, sum_map_div]
  apply div_add_eps_lt_one
  apply List.sum_nonneg
  intro x hx
  obtain ⟨j, _, rfl⟩ := List.mem_map.mp hx
  apply getD_nonneg
  intro y hy
  obtain ⟨u, _, rfl⟩ := List.mem_map.mp hy
  exact div_nonneg (Nat.cast_nonneg u) (by norm_num)

/-- C6 counterexample: at the concrete input (a 32-byte digest oracle,
empty data and suffix, n = 2) some row of the built matrix does not sum to
exactly 1 — row normalisation divides by `row_sum + 1e-12`, so row sums
fall strictly short of 1. -/
theorem build_stochastic_row_sum_ne_one :
    ¬ (∀ row ∈ build_stochastic sha0 ([] : List ℕ) ([] : List ℕ) 2,
        row.sum = 1) := by
  intro hall
  have hlen : (build_stochastic sha0 [] [] 2).length = 2 :=
    build_stochastic_length sha0 [] [] 2
  have hne : build_stochastic sha0 ([] : List ℕ) ([] : List ℕ) 2 ≠ [] := by
    intro h
    rw [h] at hlen
    simp at hlen
  obtain ⟨row, hrow⟩ := List.exists_mem_of_ne_nil _ hne
  exact absurd (hall row hrow)
    (ne_of_lt (build_stochastic_row_sum_lt_one sha0 [] [] 2 row hrow))

/-- C6 amended: for every `sha`, data, suffix and `n ≥ 2`, the built
matrix is `n × n` and each row sums to `s / (s + 1e-12)` for its raw row
sum `s ≥ 0` — strictly less than 1, never exactly 1. -/
theorem build_stochastic_shape (sha : List ℕ → List ℕ)
    (data suffix : List ℕ) (n : ℕ) (_hn : 2 ≤ n) :
    (build_stochastic sha data suffix n).length = n
    ∧ (∀ row ∈ build_stochastic sha data suffix n, row.length = n)
    ∧ (∀ row ∈ build_stochastic sha data suffix n, row.sum < 1) :=
  ⟨build_stochastic_length sha data suffix n,
   build_stochastic_row_length sha data suffix n,
   build_stochastic_row_sum_lt_one sha data suffix n⟩

/-- Witness for the amended C6 at the concrete digest oracle and n = 2. -/
theorem build_stochastic_shape_witness :
    (build_stochastic sha0 ([] : List ℕ) ([] : List ℕ) 2).length = 2
    ∧ (∀ row ∈ build_stochastic sha0 ([] : List ℕ) ([] : List ℕ) 2,
        row.length = 2)
    ∧ (∀ row ∈ build_stochastic sha0 ([] : List ℕ) ([] : List ℕ) 2,
        row.sum < 1) :=
  build_stochastic_shape sha0 [] [] 2 (by norm_num)
